import Mathlib

/-!
Verification of the tritbot log auditor (`tritbot/audit/audit.go`)

The auditor polls a Trillian log personality for its latest signed root, asks the
Trillian `LogVerifier` to check the root (and a consistency proof) against the root it
currently trusts, and advances its trusted root when the verified root carries a
strictly larger revision.

The embedding is shallow:

* Go values become Lean structures; `uint64` fields are natural numbers, the `int64`
  request field is an integer and the conversion `int64(x)` is two's-complement
  wrap-around, written out with `% 2 ^ 64`.
* `error` is the error's message; `nil` is `none`.
* The two collaborators held by the auditor (`a.log`, the gRPC client, and `a.v`, the
  Trillian verifier) are functions stored in the auditor record.  Their code is not
  part of the audited file, so every theorem quantifies over them.
* `checkLatest` mutates its receiver and returns an error; the model returns the
  receiver after the call, the returned error and the collaborator calls it made.
-/

namespace Tritbot.Audit

/-! ## Data model -/

/-- A Go `[]byte`; each element is a byte value. -/
abbrev Bytes := List Nat

/-- A Go `error` value, identified with its message. -/
abbrev Error := String

/-- The Go conversion `int64(x)` applied to a `uint64`: the 64-bit pattern is kept and
reinterpreted in two's complement. -/
def int64 (x : Nat) : Int :=
  if x % 2 ^ 64 < 2 ^ 63 then ((x % 2 ^ 64 : Nat) : Int)
  else ((x % 2 ^ 64 : Nat) : Int) - 2 ^ 64

/-- The type `types.LogRootV1` of the Trillian library: the parsed contents of a log
root, as stored in `auditor.trustedRoot`. -/
structure LogRootV1 where
  TreeSize : Nat
  RootHash : Bytes
  TimestampNanos : Nat
  Revision : Nat
  Metadata : Bytes
deriving DecidableEq

/-- The Go zero value of `LogRootV1`: what a struct field holds when a composite literal
leaves it out. -/
def LogRootV1.zero : LogRootV1 :=
  { TreeSize := 0, RootHash := [], TimestampNanos := 0, Revision := 0, Metadata := [] }

/-- The message `trillian.SignedLogRoot`, opaque to the auditor: a serialized log
root together with its signature. -/
structure SignedLogRoot where
  KeyHint : Bytes
  LogRoot : Bytes
  LogRootSignature : Bytes
deriving DecidableEq

/-- The message `trillian.Proof`. -/
structure Proof where
  LeafIndex : Int
  Hashes : List Bytes
deriving DecidableEq

/-- The request message of the `LatestRoot` call. -/
structure LatestRootRequest where
  LastTreeSize : Int
deriving DecidableEq

/-- The response message of the `LatestRoot` call; both sub-messages may be absent. -/
structure LatestRootResponse where
  Root : Option SignedLogRoot
  Proof : Option Proof
deriving DecidableEq

/-- The generated getter `GetRoot`. -/
def LatestRootResponse.GetRoot (r : LatestRootResponse) : Option SignedLogRoot := r.Root

/-- The generated getter `GetProof`. -/
def LatestRootResponse.GetProof (r : LatestRootResponse) : Option Audit.Proof := r.Proof

/-- The generated getter `GetHashes`, which is nil-safe: an absent proof has no hashes. -/
def GetHashes : Option Proof → List Bytes
  | none => []
  | some p => p.Hashes

/-- The behaviour of `log.LoggerClient.LatestRoot` at one call: a response or an error
(network failure, timeout, protocol error). -/
abbrev LoggerClient := LatestRootRequest → Except Error LatestRootResponse

/-- The behaviour of `(*client.LogVerifier).VerifyRoot`: given the trusted root, the
signed root received and a consistency proof, the parsed new root or an error. -/
abbrev LogVerifier := LogRootV1 → Option SignedLogRoot → List Bytes → Except Error LogRootV1

/-- A gRPC client connection, identified by the address it was dialled to. -/
abbrev ClientConn := String

/-- The struct `auditor`. -/
structure auditor where
  timeout : Nat
  log : LoggerClient
  v : LogVerifier
  con : ClientConn
  trustedRoot : LogRootV1

/-! ## Operations -/

/-- The function `new`.  The outcomes of `grpc.DialContext` and `log.TreeVerifier` are
inputs; `glog.Fatalf` ends the process, so no auditor is returned (`none`).  The
composite literal sets `timeout`, `log`, `v` and `con` and leaves `trustedRoot` out,
which therefore holds the zero value. -/
def new (dial : Except Error ClientConn) (treeVerifier : Except Error LogVerifier)
    (newLoggerClient : ClientConn → LoggerClient) (fetchRootTimeout : Nat) :
    Option auditor :=
  match dial with
  | .error _ => none
  | .ok lCon =>
    match treeVerifier with
    | .error _ => none
    | .ok v =>
      some { timeout := fetchRootTimeout
             log := newLoggerClient lCon
             v := v
             con := lCon
             trustedRoot := LogRootV1.zero }

/-- A call made by `checkLatest` to one of its collaborators, with its arguments. -/
inductive Call where
  | LatestRoot (req : LatestRootRequest)
  | VerifyRoot (trusted : LogRootV1) (newRoot : Option SignedLogRoot) (proof : List Bytes)
deriving DecidableEq

/-- What one call of `checkLatest` leaves behind. -/
structure Outcome where
  /-- The receiver after the call. -/
  a : auditor
  /-- The returned error; `none` is `nil`. -/
  err : Option Error
  /-- The collaborator calls made, in order. -/
  calls : List Call

/-- The request built on line 58: the trusted tree size, converted to `int64`. -/
def request (a : auditor) : LatestRootRequest :=
  { LastTreeSize := int64 a.trustedRoot.TreeSize }

/-- The local variable `proof` (lines 63 to 66): it starts as `[][]byte{{}}`, a slice
holding one empty byte slice, and is overwritten with the hashes of the response when
the trusted tree size is positive. -/
def proof (a : auditor) (r : LatestRootResponse) : List Bytes :=
  if a.trustedRoot.TreeSize > 0 then GetHashes r.GetProof else [[]]

/-- The method `checkLatest`.  The context only bounds the duration of the fetch; a
timeout shows up as an error of `LatestRoot`. -/
def checkLatest (a : auditor) : Outcome :=
  match a.log (request a) with
  | .error err => { a := a, err := some err, calls := [.LatestRoot (request a)] }
  | .ok r =>
    match a.v a.trustedRoot r.GetRoot (proof a r) with
    | .error err =>
      { a := a
        err := some ("failed to verify log root: " ++ err)
        calls := [.LatestRoot (request a), .VerifyRoot a.trustedRoot r.GetRoot (proof a r)] }
    | .ok newRoot =>
      if newRoot.Revision > a.trustedRoot.Revision then
        { a := { a with trustedRoot := newRoot }
          err := none
          calls := [.LatestRoot (request a), .VerifyRoot a.trustedRoot r.GetRoot (proof a r)] }
      else
        { a := a
          err := none
          calls := [.LatestRoot (request a), .VerifyRoot a.trustedRoot r.GetRoot (proof a r)] }

/-- How the collaborators behave at one tick of the poll loop. -/
structure Env where
  log : LoggerClient
  v : LogVerifier

/-- One iteration of the loop of `main`: at a tick `checkLatest` runs against the
collaborators as they behave then; a returned error is logged and the loop goes on. -/
def tick (e : Env) (a : auditor) : auditor :=
  (checkLatest { a with log := e.log, v := e.v }).a

/-- The auditor after the loop of `main` has served the given ticks. -/
def run (a : auditor) : List Env → auditor
  | [] => a
  | e :: es => run (tick e a) es

/-- The trusted roots held after each of the given ticks, in order. -/
def trustedRoots (a : auditor) : List Env → List LogRootV1
  | [] => []
  | e :: es => (tick e a).trustedRoot :: trustedRoots (tick e a) es

/-- The proofs handed to the verifier among a list of calls. -/
def verifierProofs : List Call → List (List Bytes)
  | [] => []
  | .VerifyRoot _ _ p :: cs => p :: verifierProofs cs
  | .LatestRoot _ :: cs => verifierProofs cs

/-- The tree sizes sent to the log service among a list of calls. -/
def requestedSizes : List Call → List Int
  | [] => []
  | .LatestRoot q :: cs => q.LastTreeSize :: requestedSizes cs
  | .VerifyRoot _ _ _ :: cs => requestedSizes cs

/-! ## Predicates used in the statements -/

/-- The cycle started from `a` fetches a response, the verifier, called with the
trusted root, the fetched root and the proof of `checkLatest`, returns `newRoot`, and
`newRoot` has a strictly larger revision than the trusted root. -/
def Advances (a : auditor) (newRoot : LogRootV1) : Prop :=
  ∃ r, a.log (request a) = .ok r ∧
    a.v a.trustedRoot r.GetRoot (proof a r) = .ok newRoot ∧
    newRoot.Revision > a.trustedRoot.Revision

/-- The fetch of the cycle started from `a` fails. -/
def FetchFails (a : auditor) : Prop :=
  ∃ err, a.log (request a) = .error err

/-- The fetch of the cycle started from `a` succeeds and the verifier then rejects. -/
def VerifyFails (a : auditor) : Prop :=
  ∃ r err, a.log (request a) = .ok r ∧
    a.v a.trustedRoot r.GetRoot (proof a r) = .error err

/-- The relation between consecutive trusted roots claimed for revisions: never
smaller, and strictly larger when the root changed. -/
def RevisionStep (r r' : LogRootV1) : Prop :=
  r.Revision ≤ r'.Revision ∧ (r' ≠ r → r.Revision < r'.Revision)

/-- The relation between consecutive trusted roots claimed for tree sizes. -/
def TreeSizeStep (r r' : LogRootV1) : Prop :=
  r.TreeSize ≤ r'.TreeSize

/-- Modelled from the spec: the body of `VerifyRoot` belongs to the Trillian client
library and is not among the sources.  Of the ConsistencyVerifier the spec says that a
new root with a tree size smaller than the old root's "is always rejected"; this is that
clause, for a verifier `v`: a root it returns is never smaller than the trusted root
it was called with. -/
def RejectsShrinkage (v : LogVerifier) : Prop :=
  ∀ trusted newRoot proof r, v trusted newRoot proof = .ok r → trusted.TreeSize ≤ r.TreeSize

/-! ## Sample collaborators and auditors

A toy wire format: the serialized log root is `[treeSize, revision]` followed by the
root hash. -/

/-- Parses the toy serialization of a log root. -/
def sampleParse (s : SignedLogRoot) : LogRootV1 :=
  { TreeSize := s.LogRoot.getD 0 0
    RootHash := s.LogRoot.drop 2
    TimestampNanos := 0
    Revision := s.LogRoot.getD 1 0
    Metadata := [] }

/-- A verifier that parses whatever it is given and checks nothing else. -/
def parsingVerifier : LogVerifier := fun _ newRoot _ =>
  match newRoot with
  | none => .error "nil root"
  | some s => .ok (sampleParse s)

/-- A verifier that parses the root and rejects one smaller than the trusted root. -/
def sizeCheckingVerifier : LogVerifier := fun trusted newRoot _ =>
  match newRoot with
  | none => .error "nil root"
  | some s =>
    if (sampleParse s).TreeSize < trusted.TreeSize then .error "log shrank"
    else .ok (sampleParse s)

/-- A verifier that rejects everything. -/
def rejectingVerifier : LogVerifier := fun _ _ _ => .error "bad proof"

/-- The signed root of the sample log at the given size and revision. -/
def sampleSigned (size rev : Nat) : SignedLogRoot :=
  { KeyHint := [], LogRoot := [size, rev, 170], LogRootSignature := [] }

/-- The parsed root of the sample log at the given size and revision. -/
def sampleRoot (size rev : Nat) : LogRootV1 :=
  { TreeSize := size, RootHash := [170], TimestampNanos := 0, Revision := rev, Metadata := [] }

/-- A response carrying the sample root and a proof of two hashes. -/
def sampleResponse (size rev : Nat) : LatestRootResponse :=
  { Root := some (sampleSigned size rev)
    Proof := some { LeafIndex := 0, Hashes := [[1], [2]] } }

/-- A log service that answers every request with the sample root. -/
def sampleLog (size rev : Nat) : LoggerClient := fun _ => .ok (sampleResponse size rev)

/-- A log service that cannot be reached. -/
def downLog : LoggerClient := fun _ => .error "deadline exceeded"

/-- An auditor trusting the sample root `(size, rev)`. -/
def sampleAuditor (log : LoggerClient) (v : LogVerifier) (size rev : Nat) : auditor :=
  { timeout := 2, log := log, v := v, con := "localhost:50053"
    trustedRoot := sampleRoot size rev }

/-- A freshly started auditor. -/
def freshAuditor (log : LoggerClient) (v : LogVerifier) : auditor :=
  { timeout := 2, log := log, v := v, con := "localhost:50053"
    trustedRoot := LogRootV1.zero }

/-- The root carried by a signed root in the toy wire format; an absent root carries
the zero root. -/
def sampleDecode : Option SignedLogRoot → LogRootV1
  | none => LogRootV1.zero
  | some s => sampleParse s

/-- A run of four ticks against a size-checking verifier: the log grows to size 4, then
to size 7, then offers a root of size 3 with a higher revision, then is down. -/
def sampleTicks : List Env :=
  [ { log := sampleLog 4 1, v := sizeCheckingVerifier },
    { log := sampleLog 7 2, v := sizeCheckingVerifier },
    { log := sampleLog 3 5, v := sizeCheckingVerifier },
    { log := downLog, v := sizeCheckingVerifier } ]

/-! ## Lemmas about one cycle -/

theorem checkLatest_fetch_error (a : auditor) (err : Error)
    (h : a.log (request a) = .error err) :
    checkLatest a = { a := a, err := some err, calls := [.LatestRoot (request a)] } := by
  simp [checkLatest, h]

theorem checkLatest_verify_error (a : auditor) (r : LatestRootResponse) (err : Error)
    (h : a.log (request a) = .ok r)
    (hv : a.v a.trustedRoot r.GetRoot (proof a r) = .error err) :
    checkLatest a =
      { a := a
        err := some ("failed to verify log root: " ++ err)
        calls := [.LatestRoot (request a),
                  .VerifyRoot a.trustedRoot r.GetRoot (proof a r)] } := by
  simp [checkLatest, h, hv]

theorem checkLatest_advance (a : auditor) (r : LatestRootResponse) (newRoot : LogRootV1)
    (h : a.log (request a) = .ok r)
    (hv : a.v a.trustedRoot r.GetRoot (proof a r) = .ok newRoot)
    (hrev : newRoot.Revision > a.trustedRoot.Revision) :
    checkLatest a =
      { a := { a with trustedRoot := newRoot }
        err := none
        calls := [.LatestRoot (request a),
                  .VerifyRoot a.trustedRoot r.GetRoot (proof a r)] } := by
  simp [checkLatest, h, hv, hrev]

theorem checkLatest_stay (a : auditor) (r : LatestRootResponse) (newRoot : LogRootV1)
    (h : a.log (request a) = .ok r)
    (hv : a.v a.trustedRoot r.GetRoot (proof a r) = .ok newRoot)
    (hrev : newRoot.Revision ≤ a.trustedRoot.Revision) :
    checkLatest a =
      { a := a
        err := none
        calls := [.LatestRoot (request a),
                  .VerifyRoot a.trustedRoot r.GetRoot (proof a r)] } := by
  have hn : ¬ newRoot.Revision > a.trustedRoot.Revision := by omega
  simp [checkLatest, h, hv, hn]

/-- Every cycle either leaves the auditor as it was or advances it. -/
theorem checkLatest_cases (a : auditor) :
    (checkLatest a).a = a ∨
      ∃ newRoot, Advances a newRoot ∧ (checkLatest a).a = { a with trustedRoot := newRoot } := by
  cases h : a.log (request a) with
  | error err => left; rw [checkLatest_fetch_error a err h]
  | ok r =>
    cases hv : a.v a.trustedRoot r.GetRoot (proof a r) with
    | error err => left; rw [checkLatest_verify_error a r err h hv]
    | ok newRoot =>
      by_cases hrev : newRoot.Revision > a.trustedRoot.Revision
      · right
        exact ⟨newRoot, ⟨r, h, hv, hrev⟩, by rw [checkLatest_advance a r newRoot h hv hrev]⟩
      · left; rw [checkLatest_stay a r newRoot h hv (by omega)]

/-- When a cycle advances, the root it advances to is determined. -/
theorem Advances_unique (a : auditor) (n m : LogRootV1)
    (hn : Advances a n) (hm : Advances a m) : n = m := by
  obtain ⟨r, h, hv, _⟩ := hn
  obtain ⟨r', h', hv', _⟩ := hm
  rw [h] at h'
  cases h'
  rw [hv] at hv'
  cases hv'
  rfl

/-! ## The update rule of one cycle -/

/-- C1: one `checkLatest` cycle changes the trusted root if and only if the fetch
succeeds, the verifier (called with the current trusted root, the fetched root and the
proof) succeeds, and the returned root has a strictly greater revision than the
trusted root; when it does, the new trusted root is exactly the root the verifier
returned, and otherwise the auditor is left as it was. -/
theorem checkLatest_replaces_iff (a : auditor) :
    ((checkLatest a).a.trustedRoot ≠ a.trustedRoot ↔ ∃ newRoot, Advances a newRoot) ∧
    (∀ newRoot, Advances a newRoot →
      (checkLatest a).a = { a with trustedRoot := newRoot } ∧
      (checkLatest a).a.trustedRoot = newRoot) ∧
    ((¬ ∃ newRoot, Advances a newRoot) → (checkLatest a).a = a) := by
  have hadv : ∀ newRoot, Advances a newRoot →
      (checkLatest a).a = { a with trustedRoot := newRoot } := by
    intro newRoot hn
    obtain ⟨r, h, hv, hrev⟩ := hn
    rw [checkLatest_advance a r newRoot h hv hrev]
  refine ⟨⟨?_, ?_⟩, ?_, ?_⟩
  · intro hne
    rcases checkLatest_cases a with hsame | ⟨newRoot, hn, _⟩
    · exact absurd (by rw [hsame]) hne
    · exact ⟨newRoot, hn⟩
  · rintro ⟨newRoot, hn⟩
    rw [hadv newRoot hn]
    obtain ⟨_, _, _, hrev⟩ := hn
    intro heq
    simp only at heq
    rw [heq] at hrev
    exact absurd hrev (by omega)
  · intro newRoot hn
    exact ⟨hadv newRoot hn, by rw [hadv newRoot hn]⟩
  · intro hno
    rcases checkLatest_cases a with hsame | ⟨newRoot, hn, _⟩
    · exact hsame
    · exact absurd ⟨newRoot, hn⟩ hno

/-- Witness for C1: a fresh auditor that is served the sample root `(4, 1)` by a
verifier that accepts it ends up trusting that root. -/
theorem checkLatest_replaces_iff_witness :
    (checkLatest (freshAuditor (sampleLog 4 1) parsingVerifier)).a.trustedRoot
      = sampleRoot 4 1 :=
  ((checkLatest_replaces_iff (freshAuditor (sampleLog 4 1) parsingVerifier)).2.1
    (sampleRoot 4 1) ⟨sampleResponse 4 1, rfl, rfl, by decide⟩).2

/-- C2: whenever `checkLatest` returns an error, the auditor, and in particular its
trusted root, is after the call what it was before. -/
theorem checkLatest_error_keeps_trustedRoot (a : auditor)
    (herr : (checkLatest a).err ≠ none) :
    (checkLatest a).a.trustedRoot = a.trustedRoot ∧ (checkLatest a).a = a := by
  rcases checkLatest_cases a with hsame | ⟨newRoot, ⟨r, h, hv, hrev⟩, _⟩
  · exact ⟨by rw [hsame], hsame⟩
  · rw [checkLatest_advance a r newRoot h hv hrev] at herr
    exact absurd rfl herr

/-- Witness for C2: the log service is down; the call returns the fetch error and the
trusted root `(4, 1)` stays. -/
theorem checkLatest_error_keeps_trustedRoot_witness :
    (checkLatest (sampleAuditor downLog parsingVerifier 4 1)).err = some "deadline exceeded" ∧
    (checkLatest (sampleAuditor downLog parsingVerifier 4 1)).a.trustedRoot = sampleRoot 4 1 :=
  ⟨rfl, (checkLatest_error_keeps_trustedRoot (sampleAuditor downLog parsingVerifier 4 1)
    (by simp [checkLatest, sampleAuditor, downLog])).1⟩

/-- C5: when the fetch and the verifier both succeed and the returned root's revision
is at most the trusted revision (in particular when the returned root is the trusted
root itself), `checkLatest` returns no error and leaves the auditor unchanged. -/
theorem checkLatest_no_advance (a : auditor) (r : LatestRootResponse) (newRoot : LogRootV1)
    (hfetch : a.log (request a) = .ok r)
    (hverify : a.v a.trustedRoot r.GetRoot (proof a r) = .ok newRoot)
    (hrev : newRoot.Revision ≤ a.trustedRoot.Revision) :
    (checkLatest a).err = none ∧
    (checkLatest a).a.trustedRoot = a.trustedRoot ∧
    (checkLatest a).a = a := by
  rw [checkLatest_stay a r newRoot hfetch hverify hrev]
  exact ⟨rfl, rfl, rfl⟩

/-- Witness for C5: the auditor trusts the sample root `(4, 1)` and is served that very
root again. -/
theorem checkLatest_no_advance_witness :
    (checkLatest (sampleAuditor (sampleLog 4 1) parsingVerifier 4 1)).err = none ∧
    (checkLatest (sampleAuditor (sampleLog 4 1) parsingVerifier 4 1)).a.trustedRoot
      = sampleRoot 4 1 :=
  ⟨(checkLatest_no_advance (sampleAuditor (sampleLog 4 1) parsingVerifier 4 1)
      (sampleResponse 4 1) (sampleRoot 4 1) rfl rfl (by decide)).1,
   (checkLatest_no_advance (sampleAuditor (sampleLog 4 1) parsingVerifier 4 1)
      (sampleResponse 4 1) (sampleRoot 4 1) rfl rfl (by decide)).2.1⟩

/-- C9: `checkLatest` returns an error if and only if the fetch fails or the verifier
fails.  A fetch error is returned as it is, a verifier error is returned wrapped, and
when both calls succeed the result is `nil` whether or not the trusted root advanced. -/
theorem checkLatest_error_iff (a : auditor) :
    ((checkLatest a).err ≠ none ↔ FetchFails a ∨ VerifyFails a) ∧
    (∀ err, a.log (request a) = .error err → (checkLatest a).err = some err) ∧
    (∀ r err, a.log (request a) = .ok r →
      a.v a.trustedRoot r.GetRoot (proof a r) = .error err →
      (checkLatest a).err = some ("failed to verify log root: " ++ err)) ∧
    (∀ r newRoot, a.log (request a) = .ok r →
      a.v a.trustedRoot r.GetRoot (proof a r) = .ok newRoot →
      (checkLatest a).err = none) := by
  refine ⟨?_, ?_, ?_, ?_⟩
  · cases h : a.log (request a) with
    | error err =>
      rw [checkLatest_fetch_error a err h]
      exact ⟨fun _ => Or.inl ⟨err, h⟩, fun _ => by simp⟩
    | ok r =>
      cases hv : a.v a.trustedRoot r.GetRoot (proof a r) with
      | error err =>
        rw [checkLatest_verify_error a r err h hv]
        exact ⟨fun _ => Or.inr ⟨r, err, h, hv⟩, fun _ => by simp⟩
      | ok newRoot =>
        have hnone : (checkLatest a).err = none := by
          by_cases hrev : newRoot.Revision > a.trustedRoot.Revision
          · rw [checkLatest_advance a r newRoot h hv hrev]
          · rw [checkLatest_stay a r newRoot h hv (by omega)]
        rw [hnone]
        constructor
        · intro hne; exact absurd rfl hne
        · rintro (⟨err, he⟩ | ⟨r', err, hr', he⟩)
          · rw [h] at he; cases he
          · rw [h] at hr'; cases hr'; rw [hv] at he; cases he
  · intro err h
    rw [checkLatest_fetch_error a err h]
  · intro r err h hv
    rw [checkLatest_verify_error a r err h hv]
  · intro r newRoot h hv
    by_cases hrev : newRoot.Revision > a.trustedRoot.Revision
    · rw [checkLatest_advance a r newRoot h hv hrev]
    · rw [checkLatest_stay a r newRoot h hv (by omega)]

/-- Witness for C9: a verifier that rejects makes the call return the wrapped error. -/
theorem checkLatest_error_iff_witness :
    (checkLatest (sampleAuditor (sampleLog 7 2) rejectingVerifier 4 1)).err
      = some "failed to verify log root: bad proof" :=
  (checkLatest_error_iff (sampleAuditor (sampleLog 7 2) rejectingVerifier 4 1)).2.2.1
    (sampleResponse 7 2) "bad proof" rfl rfl

/-! ## Monotonicity along the poll loop -/

/-- A tick leaves the auditor as it was, up to the collaborators, or installs a root
returned by the verifier of that tick with a strictly larger revision. -/
theorem tick_cases (e : Env) (a : auditor) :
    (tick e a).trustedRoot = a.trustedRoot ∨
      ∃ r proof, e.v a.trustedRoot r proof = .ok (tick e a).trustedRoot ∧
        (tick e a).trustedRoot.Revision > a.trustedRoot.Revision := by
  unfold tick
  rcases checkLatest_cases { a with log := e.log, v := e.v } with hsame | ⟨n, ⟨r, _, hv, hrev⟩, hn⟩
  · left; rw [hsame]
  · right
    rw [hn]
    exact ⟨r.GetRoot, proof { a with log := e.log, v := e.v } r, hv, hrev⟩

theorem tick_revisionStep (e : Env) (a : auditor) :
    RevisionStep a.trustedRoot (tick e a).trustedRoot := by
  rcases tick_cases e a with hsame | ⟨_, _, _, hrev⟩
  · rw [hsame]
    exact ⟨le_refl _, fun h => absurd rfl h⟩
  · exact ⟨by omega, fun _ => hrev⟩

theorem tick_treeSizeStep (e : Env) (a : auditor) (hv : RejectsShrinkage e.v) :
    TreeSizeStep a.trustedRoot (tick e a).trustedRoot := by
  rcases tick_cases e a with hsame | ⟨r, p, hok, _⟩
  · rw [hsame]
    exact le_refl _
  · exact hv a.trustedRoot r p _ hok

theorem sizeCheckingVerifier_rejectsShrinkage : RejectsShrinkage sizeCheckingVerifier := by
  intro trusted newRoot p r h
  unfold sizeCheckingVerifier at h
  cases newRoot with
  | none => simp at h
  | some s =>
    simp only at h
    split at h
    · simp at h
    · cases h
      omega

/-- C3: along every sequence of `checkLatest` cycles, with arbitrary fetch results and
verifier outcomes at each tick and from any trusted root, the revision of the trusted
root never decreases from one cycle to the next and strictly increases on every cycle
that changes the trusted root; hence the revision at the end is at least the one at
the start. -/
theorem revision_monotone (a : auditor) (ticks : List Env) :
    List.Chain RevisionStep a.trustedRoot (trustedRoots a ticks) ∧
    a.trustedRoot.Revision ≤ (run a ticks).trustedRoot.Revision := by
  induction ticks generalizing a with
  | nil => exact ⟨List.Chain.nil, le_refl _⟩
  | cons e es ih =>
    obtain ⟨hchain, hle⟩ := ih (tick e a)
    have hstep := tick_revisionStep e a
    exact ⟨List.Chain.cons hstep hchain, le_trans hstep.1 hle⟩

/-- C4: along every sequence of `checkLatest` cycles whose verifier never accepts a root
smaller than the trusted one, the tree size of the trusted root never decreases from
one cycle to the next; hence no trusted root is replaced by a smaller one. -/
theorem treeSize_monotone (a : auditor) (ticks : List Env)
    (hv : ∀ e ∈ ticks, RejectsShrinkage e.v) :
    List.Chain TreeSizeStep a.trustedRoot (trustedRoots a ticks) ∧
    a.trustedRoot.TreeSize ≤ (run a ticks).trustedRoot.TreeSize := by
  induction ticks generalizing a with
  | nil => exact ⟨List.Chain.nil, le_refl _⟩
  | cons e es ih =>
    obtain ⟨hchain, hle⟩ := ih (tick e a) (fun e' he' => hv e' (List.mem_cons_of_mem e he'))
    have hstep := tick_treeSizeStep e a (hv e (List.mem_cons_self e es))
    exact ⟨List.Chain.cons hstep hchain, le_trans hstep hle⟩

/-- Witness for C4: in the sample run the trusted sizes are 4, 7, 7, 7; the offer of a
root of size 3 is rejected by the verifier and the outage changes nothing. -/
theorem treeSize_monotone_witness :
    (∀ e ∈ sampleTicks, RejectsShrinkage e.v) ∧
    (trustedRoots (freshAuditor downLog rejectingVerifier) sampleTicks).map LogRootV1.TreeSize
      = [4, 7, 7, 7] ∧
    List.Chain TreeSizeStep LogRootV1.zero
      (trustedRoots (freshAuditor downLog rejectingVerifier) sampleTicks) := by
  have h : ∀ e ∈ sampleTicks, RejectsShrinkage e.v := by
    intro e he
    simp only [sampleTicks, List.mem_cons, List.mem_singleton, List.not_mem_nil, or_false] at he
    rcases he with rfl | rfl | rfl | rfl <;> exact sizeCheckingVerifier_rejectsShrinkage
  exact ⟨h, by decide,
    (treeSize_monotone (freshAuditor downLog rejectingVerifier) sampleTicks h).1⟩

/-- The update rule of `checkLatest` compares revisions only: with a verifier that does
not check sizes, a root of size 3 and revision 5 replaces a trusted root of size 7 and
revision 2. -/
theorem tick_shrinks_with_unchecked_verifier :
    (tick { log := sampleLog 3 5, v := parsingVerifier }
      (sampleAuditor downLog rejectingVerifier 7 2)).trustedRoot = sampleRoot 3 5 := by
  decide

/-- Witness for C3: in the sample run the trusted revisions are 1, 2, 2, 2. -/
theorem revision_monotone_witness :
    (trustedRoots (freshAuditor downLog rejectingVerifier) sampleTicks).map LogRootV1.Revision
      = [1, 2, 2, 2] ∧
    List.Chain RevisionStep LogRootV1.zero
      (trustedRoots (freshAuditor downLog rejectingVerifier) sampleTicks) :=
  ⟨by decide, (revision_monotone (freshAuditor downLog rejectingVerifier) sampleTicks).1⟩

/-! ## The arguments handed to the collaborators -/

/-- The calls of a cycle whose fetch succeeds: the request, then the verifier. -/
theorem checkLatest_calls (a : auditor) (r : LatestRootResponse)
    (h : a.log (request a) = .ok r) :
    (checkLatest a).calls =
      [.LatestRoot (request a), .VerifyRoot a.trustedRoot r.GetRoot (proof a r)] := by
  cases hv : a.v a.trustedRoot r.GetRoot (proof a r) with
  | error err => rw [checkLatest_verify_error a r err h hv]
  | ok newRoot =>
    by_cases hrev : newRoot.Revision > a.trustedRoot.Revision
    · rw [checkLatest_advance a r newRoot h hv hrev]
    · rw [checkLatest_stay a r newRoot h hv (by omega)]

/-- The first call of every cycle is the request for the latest root. -/
theorem checkLatest_requestedSizes (a : auditor) :
    requestedSizes (checkLatest a).calls = [int64 a.trustedRoot.TreeSize] := by
  cases h : a.log (request a) with
  | error err => rw [checkLatest_fetch_error a err h]; rfl
  | ok r => rw [checkLatest_calls a r h]; rfl

theorem int64_eq_iff (x : Nat) : int64 x = (x : Int) ↔ x < 2 ^ 63 := by
  unfold int64
  constructor
  · intro h
    split at h <;> omega
  · intro h
    have hmod : x % 2 ^ 64 = x := Nat.mod_eq_of_lt (by omega)
    rw [hmod, if_pos h]

/-- C6, as stated, fails: a fresh auditor (trusted tree size 0) hands the verifier a
proof of one element, the empty hash, and not the empty sequence. -/
theorem initial_proof_not_empty :
    (freshAuditor (sampleLog 4 1) parsingVerifier).trustedRoot.TreeSize = 0 ∧
    verifierProofs (checkLatest (freshAuditor (sampleLog 4 1) parsingVerifier)).calls
      = [[[]]] ∧
    ∀ p ∈ verifierProofs (checkLatest (freshAuditor (sampleLog 4 1) parsingVerifier)).calls,
      p ≠ [] ∧ p.length = 1 := by
  decide

/-- C6, amended: in a cycle whose fetch succeeds the verifier is called once, with the
trusted root and the fetched root; when the trusted tree size is 0 the proof it is
handed is the one-element sequence holding the empty hash, whatever proof the log
service returned, and when the trusted tree size is positive it is exactly the
sequence of hashes returned by the log service. -/
theorem proof_handed_to_verifier (a : auditor) (r : LatestRootResponse)
    (hfetch : a.log (request a) = .ok r) :
    (a.trustedRoot.TreeSize = 0 →
      (checkLatest a).calls =
        [.LatestRoot (request a), .VerifyRoot a.trustedRoot r.GetRoot [[]]] ∧
      verifierProofs (checkLatest a).calls = [[[]]]) ∧
    (a.trustedRoot.TreeSize > 0 →
      (checkLatest a).calls =
        [.LatestRoot (request a), .VerifyRoot a.trustedRoot r.GetRoot (GetHashes r.GetProof)] ∧
      verifierProofs (checkLatest a).calls = [GetHashes r.GetProof]) := by
  rw [checkLatest_calls a r hfetch]
  constructor
  · intro h0
    have hp : proof a r = [[]] := by simp [proof, h0]
    rw [hp]
    exact ⟨rfl, rfl⟩
  · intro hpos
    have hp : proof a r = GetHashes r.GetProof := by simp [proof, hpos]
    rw [hp]
    exact ⟨rfl, rfl⟩

/-- Witness for C6, amended: an auditor trusting a root of size 4 hands the verifier the
two hashes of the response. -/
theorem proof_handed_to_verifier_witness :
    verifierProofs (checkLatest (sampleAuditor (sampleLog 7 2) parsingVerifier 4 1)).calls
      = [[[1], [2]]] :=
  ((proof_handed_to_verifier (sampleAuditor (sampleLog 7 2) parsingVerifier 4 1)
    (sampleResponse 7 2) rfl).2 (by decide)).2

/-- C7, as stated, fails: for the trusted tree size `2 ^ 63` the request carries
`-2 ^ 63`, which is not the trusted tree size. -/
theorem lastTreeSize_wraps :
    requestedSizes
      (checkLatest (sampleAuditor downLog rejectingVerifier 9223372036854775808 1)).calls
      = [-9223372036854775808] ∧
    (request (sampleAuditor downLog rejectingVerifier 9223372036854775808 1)).LastTreeSize
      ≠ ((sampleAuditor downLog rejectingVerifier 9223372036854775808 1).trustedRoot.TreeSize
          : Int) := by
  decide

/-- C7, amended: every cycle sends exactly one request, whose `LastTreeSize` is the
two's-complement reading of the trusted tree size; for a trusted tree size within
`uint64` it denotes the same number as the trusted tree size exactly when that size is
below `2 ^ 63`, and is the tree size minus `2 ^ 64` otherwise. -/
theorem lastTreeSize_eq_iff (a : auditor) (hsize : a.trustedRoot.TreeSize < 2 ^ 64) :
    requestedSizes (checkLatest a).calls = [(request a).LastTreeSize] ∧
    ((request a).LastTreeSize = (a.trustedRoot.TreeSize : Int) ↔
      a.trustedRoot.TreeSize < 2 ^ 63) ∧
    (2 ^ 63 ≤ a.trustedRoot.TreeSize →
      (request a).LastTreeSize = (a.trustedRoot.TreeSize : Int) - 2 ^ 64) := by
  refine ⟨checkLatest_requestedSizes a, int64_eq_iff _, ?_⟩
  intro hbig
  show int64 a.trustedRoot.TreeSize = _
  unfold int64
  have hmod : a.trustedRoot.TreeSize % 2 ^ 64 = a.trustedRoot.TreeSize :=
    Nat.mod_eq_of_lt hsize
  rw [hmod, if_neg (by omega)]

/-- Witness for C7, amended: with a trusted tree size of 4 the request carries 4. -/
theorem lastTreeSize_eq_iff_witness :
    requestedSizes (checkLatest (sampleAuditor (sampleLog 7 2) parsingVerifier 4 1)).calls
      = [4] :=
  (lastTreeSize_eq_iff (sampleAuditor (sampleLog 7 2) parsingVerifier 4 1) (by decide)).1

/-! ## Start-up -/

/-- C8: an auditor returned by `new` trusts the empty-log root: tree size 0, revision 0
and no root hash. -/
theorem new_trustedRoot (dial : Except Error ClientConn)
    (treeVerifier : Except Error LogVerifier) (newLoggerClient : ClientConn → LoggerClient)
    (fetchRootTimeout : Nat) (a : auditor)
    (h : new dial treeVerifier newLoggerClient fetchRootTimeout = some a) :
    a.trustedRoot.TreeSize = 0 ∧ a.trustedRoot.Revision = 0 ∧ a.trustedRoot.RootHash = [] ∧
    a.trustedRoot = LogRootV1.zero := by
  unfold new at h
  cases dial with
  | error e => simp at h
  | ok lCon =>
    cases treeVerifier with
    | error e => simp at h
    | ok v =>
      simp only [Option.some.injEq] at h
      subst h
      exact ⟨rfl, rfl, rfl, rfl⟩

/-- Witness for C8: start-up with a reachable logger and a verifier. -/
theorem new_trustedRoot_witness :
    new (.ok "localhost:50053") (.ok parsingVerifier) (fun _ => sampleLog 4 1) 2
      = some (freshAuditor (sampleLog 4 1) parsingVerifier) ∧
    (freshAuditor (sampleLog 4 1) parsingVerifier).trustedRoot.TreeSize = 0 :=
  ⟨rfl,
   (new_trustedRoot (.ok "localhost:50053") (.ok parsingVerifier) (fun _ => sampleLog 4 1) 2
    (freshAuditor (sampleLog 4 1) parsingVerifier) rfl).1⟩

/-- When the connection and the verifier are both set up, `new` returns an auditor. -/
theorem new_returns (lCon : ClientConn) (v : LogVerifier)
    (newLoggerClient : ClientConn → LoggerClient) (fetchRootTimeout : Nat) :
    ∃ a, new (.ok lCon) (.ok v) newLoggerClient fetchRootTimeout = some a :=
  ⟨_, rfl⟩

/-! ## Idempotence of a cycle -/

/-- C10: with a verifier that on success returns the root carried by the signed root it
was given, running `checkLatest` a second time on the same fetched response leaves the
auditor, and so the trusted root, as the first run left it. -/
theorem checkLatest_twice (a : auditor) (resp : LatestRootResponse)
    (decode : Option SignedLogRoot → LogRootV1)
    (hfetch : a.log (request a) = .ok resp)
    (hfetch2 : a.log (request (checkLatest a).a) = .ok resp)
    (hv : ∀ trusted newRoot p r, a.v trusted newRoot p = .ok r → r = decode newRoot) :
    (checkLatest (checkLatest a).a).a.trustedRoot = (checkLatest a).a.trustedRoot ∧
    (checkLatest (checkLatest a).a).a = (checkLatest a).a := by
  have key : (checkLatest (checkLatest a).a).a = (checkLatest a).a := by
    rcases checkLatest_cases a with hsame | ⟨n, ⟨r, h, hvn, hrev⟩, hn⟩
    · rw [hsame, hsame]
    · rw [hn] at hfetch2 ⊢
      rcases checkLatest_cases { a with trustedRoot := n } with hsame2 | ⟨m, ⟨r2, h2, hvm, hrev2⟩, _⟩
      · exact hsame2
      · exfalso
        rw [hfetch] at h
        cases h
        have h2r : a.log (request { a with trustedRoot := n }) = .ok r2 := h2
        rw [hfetch2] at h2r
        cases h2r
        have e1 := hv _ _ _ _ hvn
        have e2 := hv _ _ _ _ hvm
        have hmn : m = n := by rw [e1, e2]
        rw [hmn] at hrev2
        exact absurd hrev2 (by simp)
  exact ⟨by rw [key], key⟩

/-- Witness for C10: a fresh auditor served the sample root `(4, 1)` twice trusts it after
the first run and still after the second. -/
theorem checkLatest_twice_witness :
    (checkLatest (checkLatest (freshAuditor (sampleLog 4 1) parsingVerifier)).a).a.trustedRoot
      = (checkLatest (freshAuditor (sampleLog 4 1) parsingVerifier)).a.trustedRoot ∧
    (checkLatest (freshAuditor (sampleLog 4 1) parsingVerifier)).a.trustedRoot
      = sampleRoot 4 1 :=
  ⟨(checkLatest_twice (freshAuditor (sampleLog 4 1) parsingVerifier) (sampleResponse 4 1)
      sampleDecode rfl rfl
      (by
        intro trusted newRoot p r h
        cases newRoot with
        | none => simp [freshAuditor, parsingVerifier] at h
        | some s =>
          simp only [freshAuditor, parsingVerifier, Except.ok.injEq] at h
          rw [← h]
          rfl)).1,
   by decide⟩

end Tritbot.Audit
